import Mathlib

/-!
Verification of the citation extraction and matching engine of
`zotero-citation-relinker.py` against its natural-language specification.

The Python source is shallowly embedded: strings are `List Char`, Python
dicts that are only read through key lookup are association lists where the
most recent insertion wins, `None`-able SQL columns are `Option`, and code
paths on which Python would raise an exception are modelled with
`Except PyErr`.  External collaborators (the `rapidfuzz` token-set scorer
and the `json` decoder) are parameters of the functions that call them,
exactly at their call sites.
-/

namespace Relinker

/-- Python strings are modelled as lists of characters. -/
abbrev Str := List Char

/-- CPython `str.isspace`-style whitespace recognized by `\s` in `re` and by
`str.strip()` (ASCII part; the source data is ASCII-based field codes). -/
def pySpace (c : Char) : Bool :=
  c = ' ' || c = '\t' || c = '\n' || c = '\r' ||
  c = Char.ofNat 11 || c = Char.ofNat 12

/-- Python `str.lower()` (ASCII portion). -/
def pyLower (s : Str) : Str := s.map Char.toLower

/-- Python `str.upper()` (ASCII portion). -/
def pyUpper (s : Str) : Str := s.map Char.toUpper

/-- Python `str.strip()`: remove leading and trailing whitespace. -/
def pyStrip (s : Str) : Str :=
  ((s.dropWhile pySpace).reverse.dropWhile pySpace).reverse

/-- DOI normalization, `doi.lower().strip()` (source lines 288 and 305). -/
def normDOI (s : Str) : Str := pyStrip (pyLower s)

/-- Character class `[0-9X]` used by the ISBN normalization. -/
def isbnKeep (c : Char) : Bool := c.isDigit || c = 'X'

/-- ISBN normalization `re.sub(r'[^0-9X]', '', isbn.upper())`
(source lines 291 and 313). -/
def normISBN (s : Str) : Str := (pyUpper s).filter isbnKeep

/-- `p` is a prefix of `s` (Boolean, by direct recursion). -/
def leadsWith : Str → Str → Bool
  | [], _ => true
  | _ :: _, [] => false
  | p :: ps, c :: cs => p = c && leadsWith ps cs

/-- Python `p in s`: `p` occurs as a contiguous substring of `s`. -/
def containsSeq (p : Str) : Str → Bool
  | [] => p.isEmpty
  | c :: rest => leadsWith p (c :: rest) || containsSeq p rest

/-- The character class `[A-Za-z0-9]` of the item-key pattern. -/
def isAlnumAscii (c : Char) : Bool :=
  ('A' ≤ c && c ≤ 'Z') || ('a' ≤ c && c ≤ 'z') || ('0' ≤ c && c ≤ '9')

/-- The literal `/items/` of the item-key pattern. -/
def slashItems : Str := "/items/".toList

/-- `re.search(r'/items/([A-Za-z0-9]+)$', uri)` (source line 130): the match
succeeds exactly when `uri` ends in `/items/` followed by a nonempty
alphanumeric run, and the captured group is that trailing run.  Since the
character before the group is `/`, the group is precisely the maximal
trailing alphanumeric run of `uri`. -/
def extractItemKey (uri : Str) : Option Str :=
  let g := (uri.reverse.takeWhile isAlnumAscii).reverse
  if g ≠ [] && leadsWith (slashItems ++ g).reverse uri.reverse then some g
  else none

/-- The key-extraction loop of `Citation.from_field_code` (source lines
129–133), restricted to string URIs: take the first URI whose key pattern
matches, stop there. -/
def computeKey : List Str → Option Str
  | [] => none
  | u :: rest =>
    match extractItemKey u with
    | some k => some k
    | none => computeKey rest

/-- Decoded JSON values, as produced by the external `json.loads`
collaborator.  Numbers are modelled as integers (all numeric fields the
program reads are years). Objects keep their textual key order; `json.loads`
lets a duplicate key's last occurrence win, so lookups scan from the right. -/
inductive Json where
  | null : Json
  | bool (b : Bool) : Json
  | num (n : Int) : Json
  | str (s : Str) : Json
  | arr (l : List Json) : Json
  | obj (l : List (Str × Json)) : Json

/-- Python `dict.get(k)` on a decoded JSON object (`None` ↦ `none`);
for duplicate keys the last one wins, as in `json.loads`. -/
def jsonGet (l : List (Str × Json)) (k : Str) : Option Json :=
  (l.reverse.find? (fun p => p.1 == k)).map (·.2)

/-- Python truthiness of a decoded JSON value. -/
def jsonTruthy : Json → Bool
  | .null => false
  | .bool b => b
  | .num n => n != 0
  | .str s => !s.isEmpty
  | .arr l => !l.isEmpty
  | .obj l => !l.isEmpty

/-- Decimal digits of a natural number. -/
def natStr (n : Nat) : Str := Nat.toDigits 10 n

/-- Python `str(i)` for an integer. -/
def intStr (i : Int) : Str :=
  (if i < 0 then ['-'] else []) ++ natStr i.natAbs

/-- Python `str(x)` applied to a truthy decoded JSON value (source line 138).
Lists and dicts are rendered by `repr` in Python; only their nonemptiness
(truthiness) is ever observed by the program's control flow, so they are
modelled by nonempty bracket placeholders. -/
def pyStrOfJson : Json → Str
  | .null => "None".toList
  | .bool true => "True".toList
  | .bool false => "False".toList
  | .num n => intStr n
  | .str s => s
  | .arr _ => ['[', ']']
  | .obj _ => [Char.ofNat 123, Char.ofNat 125]

/-- Exceptions a Python code path can raise.  The parser absorbs none of
these (there is no `try` around the extraction loops), so they are
propagated. -/
inductive PyErr where
  | typeErr : PyErr
  | attrErr : PyErr
  | idxErr : PyErr
  | keyErr : PyErr
deriving Repr, DecidableEq

/-- Python `x[0]` on a decoded JSON value: lists and nonempty strings index,
an empty list or string raises `IndexError`, a dict raises `KeyError`
(decoded JSON objects have only string keys), everything else raises
`TypeError`. -/
def pyIndex0 : Json → Except PyErr Json
  | .arr [] => .error .idxErr
  | .arr (x :: _) => .ok x
  | .str [] => .error .idxErr
  | .str (c :: _) => .ok (.str [c])
  | .obj _ => .error .keyErr
  | _ => .error .typeErr

/-- One entry of a citation's author list, after the shape inspection of
`author_string` (source lines 79–86): a dict with a `family` key, a dict
with a `literal` key (and no `family`), a bare string, or anything else
(silently skipped). -/
inductive Author where
  | famA (f : Str) : Author
  | litA (s : Str) : Author
  | strA (s : Str) : Author
  | otherA : Author
deriving Repr, DecidableEq

/-- Classify one decoded author entry the way `author_string` inspects it.
A non-string `family`/`literal` value is modelled as the empty string (in
Python such a value would be stored raw and make the later `" ".join`
raise; no claim exercises that path). -/
def jsonAuthor : Json → Author
  | .obj o =>
    if (jsonGet o "family".toList).isSome then
      .famA (match jsonGet o "family".toList with
        | some (.str f) => f
        | _ => [])
    else if (jsonGet o "literal".toList).isSome then
      .litA (match jsonGet o "literal".toList with
        | some (.str f) => f
        | _ => [])
    else .otherA
  | .str s => .strA s
  | _ => .otherA

/-- One bibliographic reference within a citation (`CitationItem`,
source lines 52–94).  The derived `uri` field (first element of `uris`) and
the raw `item_data` dict are omitted: no claim reads them. -/
structure CitationItem where
  uris : List Str := []
  item_key : Option Str := none
  title : Str := []
  authors : List Author := []
  year : Str := []
  doi : Str := []
  isbn : Str := []
  is_orphaned : Bool := false
  match_score : Nat := 0
  match_method : Str := []
deriving Repr, DecidableEq

/-- Python `" ".join(parts)`. -/
def joinSpace : List Str → Str
  | [] => []
  | [x] => x
  | x :: y :: rest => x ++ ' ' :: joinSpace (y :: rest)

/-- `CitationItem.author_string` (source lines 76–87): family names,
falling back to literal names and bare strings; other entries are skipped,
and the collected parts are space-joined (empty parts included, exactly as
`" ".join` does). -/
def authorString (l : List Author) : Str :=
  joinSpace (l.filterMap (fun a =>
    match a with
    | .famA f => some f
    | .litA s => some s
    | .strA s => some s
    | .otherA => none))

/-- `CitationItem.search_string` (source lines 89–94): title, author string
and (if truthy) year, with falsy components dropped by `filter(None, ...)`
before the space-join. -/
def searchString (it : CitationItem) : Str :=
  joinSpace (([it.title, authorString it.authors] ++
    (if it.year ≠ [] then [it.year] else [])).filter (· ≠ []))

/-- One field-code occurrence in the document (`Citation`, source lines
97–104).  The raw decoded `citation_data` dict is omitted: no claim reads
it. -/
structure Citation where
  field_code : Str
  items : List CitationItem
  field_index : Nat
  is_orphaned : Bool := false
deriving Repr, DecidableEq

/-- Year derivation of `Citation.from_field_code` (source lines 138–140):
`str(itemData.get('issued', {}).get('date-parts', [[None]])[0][0] or '')`,
falling back to `itemData.get('date', '')[:4]` when that is falsy, and to
the empty string when `date` is falsy too.  A truthy non-string `date`
value is modelled as a `TypeError` (Python would slice a JSON list into a
list-valued year there; no claim exercises that corner). -/
def extractYear (md : List (Str × Json)) : Except PyErr Str :=
  let step1 : Except PyErr Json :=
    match jsonGet md "issued".toList with
    | none => .ok Json.null
    | some (.obj io) =>
      (match jsonGet io "date-parts".toList with
       | none => .ok Json.null
       | some dp =>
         match pyIndex0 dp with
         | .ok x => pyIndex0 x
         | .error e => .error e)
    | some _ => .error .attrErr
  match step1 with
  | .error e => .error e
  | .ok v =>
    let ystr := if jsonTruthy v then pyStrOfJson v else []
    if ystr = [] then
      match jsonGet md "date".toList with
      | none => .ok []
      | some dv =>
        if jsonTruthy dv then
          match dv with
          | .str d => .ok (d.take 4)
          | _ => .error .typeErr
        else .ok []
    else .ok ystr

/-- The key-extraction loop over a raw decoded `uris` list (source lines
129–133): `re.search` raises `TypeError` on a non-string URI, but only if
it is reached before a match is found. -/
def keyLoop : List Json → Except PyErr (Option Str)
  | [] => .ok none
  | .str u :: rest =>
    (match extractItemKey u with
     | some k => .ok (some k)
     | none => keyLoop rest)
  | _ :: _ => .error .typeErr

/-- Reading the `uris` value of one citation item (source lines 127–133):
`ci.uris[0] if ci.uris else None` followed by the key loop.  Returns the
stored URI list (string elements only; a stored non-string URI is only ever
re-read textually) and the extracted key.  A truthy non-list, non-string
`uris` raises: subscripting a dict raises `KeyError`, iterating a
number/bool/null raises `TypeError`; iterating a string iterates its
characters. -/
def readUris (v : Option Json) : Except PyErr (List Str × Option Str) :=
  match v with
  | none => .ok ([], none)
  | some (.arr l) => do
      let k ← keyLoop l
      return (l.filterMap (fun j => match j with | .str s => some s | _ => none), k)
  | some (.str s) => do
      let chars := s.map (fun c => [c])
      let k ← keyLoop (s.map (fun c => Json.str [c]))
      return (chars, k)
  | some (.obj []) => .ok ([], none)
  | some (.obj (_ :: _)) => .error .keyErr
  | some _ => .error .typeErr

/-- Processing one element of `citationItems` (source lines 122–146).
A non-dict element raises `AttributeError` at `item_data.get`.  Non-string
`title`/`DOI`/`ISBN` values are modelled as empty (Python stores them raw;
they would make `find_match` raise later, a path no claim exercises), and a
truthy non-list, non-string `author` value likewise (Python stores it raw
and `author_string` would raise). -/
def processCitationItem (j : Json) : Except PyErr CitationItem :=
  match j with
  | .obj d => do
    let (uris, key) ← readUris (jsonGet d "uris".toList)
    let md ← (match jsonGet d "itemData".toList with
      | none => Except.ok []
      | some (.obj md) => Except.ok md
      | some _ => Except.error PyErr.attrErr)
    let title := match jsonGet md "title".toList with
      | some (.str s) => s
      | _ => []
    let year ← extractYear md
    let authors := match jsonGet md "author".toList with
      | some (.arr l) => l.map jsonAuthor
      | some (.str s) => s.map (fun c => Author.strA [c])
      | _ => []
    let doi := match jsonGet md "DOI".toList with
      | some (.str s) => s
      | _ => []
    let isbn := match jsonGet md "ISBN".toList with
      | some (.str s) => s
      | _ => []
    return { uris := uris, item_key := key, title := title,
             authors := authors, year := year, doi := doi, isbn := isbn }
  | _ => .error .attrErr

/-- Building a `Citation` from decoded citation data (source lines
121–153).  `citation_data.get('citationItems', [])` is iterated: a non-dict
`citation_data` raises `AttributeError`; iterating a truthy non-list value
raises (`AttributeError` on the first string/dict element produced,
`TypeError` for non-iterables), while an empty string or dict iterates
zero times. -/
def processCitationData (fc : Str) (j : Json) (idx : Nat) :
    Except PyErr Citation :=
  match j with
  | .obj d =>
    (match jsonGet d "citationItems".toList with
     | none => .ok { field_code := fc, items := [], field_index := idx }
     | some (.arr l) => do
         let items ← l.mapM processCitationItem
         return { field_code := fc, items := items, field_index := idx }
     | some (.str []) => .ok { field_code := fc, items := [], field_index := idx }
     | some (.obj []) => .ok { field_code := fc, items := [], field_index := idx }
     | some (.str (_ :: _)) => .error .attrErr
     | some (.obj (_ :: _)) => .error .attrErr
     | some _ => .error .typeErr)
  | _ => .error .attrErr

/-- The citation marker token of the field-code regex. -/
def markerFull : Str := "ADDIN ZOTERO_ITEM CSL_CITATION".toList

/-- The shorter marker tested by the extractor (`'ADDIN ZOTERO_ITEM' in
field_code`, source line 390). -/
def markerShort : Str := "ADDIN ZOTERO_ITEM".toList

/-- Everything up to and including the last closing brace of `s`. -/
def takeToLastRBrace (s : Str) : Str :=
  (s.reverse.dropWhile (fun c => c ≠ Char.ofNat 125)).reverse

/-- `re.search(r'ADDIN ZOTERO_ITEM CSL_CITATION\s*(\{.*\})', s, re.DOTALL)`
(source line 110): at the leftmost marker occurrence followed (after its
maximal whitespace run) by an opening brace with some closing brace at or
after it, the greedy group captures from that opening brace through the
last closing brace of the whole string; failing positions are skipped. -/
def findPayload : Str → Option Str
  | [] => none
  | c :: rest =>
    if leadsWith markerFull (c :: rest) then
      let after := (List.drop markerFull.length (c :: rest)).dropWhile pySpace
      match after with
      | b :: _ =>
        if b = Char.ofNat 123 then
          if containsSeq [Char.ofNat 125] after then some (takeToLastRBrace after)
          else findPayload rest
        else findPayload rest
      | [] => findPayload rest
    else findPayload rest

/-- `Citation.from_field_code` (source lines 107–153), parameterized by the
external JSON decoder (`json.loads`, returning `none` where Python raises
`json.JSONDecodeError`, which the source catches).  `.ok none` is the
"not a citation / skipped with a diagnostic" outcome; `.error` marks a
Python exception escaping the function. -/
def fromFieldCode (decode : Str → Option Json) (s : Str) (idx : Nat) :
    Except PyErr (Option Citation) :=
  match findPayload s with
  | none => .ok none
  | some jstr =>
    match decode jstr with
    | none => .ok none
    | some j => (processCitationData s j idx).map some

/-- One creator row of the catalog collaborator's feed (source lines
260–269). -/
structure Creator where
  firstName : Str
  lastName : Str
  creatorType : Str
deriving Repr, DecidableEq

/-- One raw catalog record, as the external catalog collaborator supplies
it (the SQL query of `_load_items`); nullable columns are `Option`. -/
structure LibRow where
  key : Str
  title : Option Str := none
  date : Option Str := none
  doi : Option Str := none
  isbn : Option Str := none
  creators : List Creator := []
deriving Repr, DecidableEq

/-- A processed library record (the per-row work of `_load_items`, source
lines 256–292). -/
structure LibItem where
  key : Str
  title : Option Str
  date : Option Str
  doi : Option Str
  isbn : Option Str
  authors : List (Str × Str)
  year : Option Str
  search_string : Str
deriving Repr, DecidableEq

/-- `re.search(r'\d{4}', date)` (source line 275): the leftmost run of four
consecutive digits. -/
def firstFourDigitRun : Str → Option Str
  | c1 :: c2 :: c3 :: c4 :: rest =>
    if c1.isDigit && c2.isDigit && c3.isDigit && c4.isDigit then
      some [c1, c2, c3, c4]
    else firstFourDigitRun (c2 :: c3 :: c4 :: rest)
  | _ => none

/-- Python f-string rendering of a nullable string (`None` prints as
`None`, exactly as in `f"{title} {author_str} {year}"`, source line 282). -/
def fmtN : Option Str → Str
  | some s => s
  | none => "None".toList

/-- The per-row processing of `_load_items` (source lines 256–282):
filter creators to authors and editors, derive the year as the first
4-digit run of a truthy date, and precompute the composite search string. -/
def processRow (r : LibRow) : LibItem :=
  let auth := (r.creators.filter (fun c =>
      c.creatorType == "author".toList || c.creatorType == "editor".toList)).map
    (fun c => (c.firstName, c.lastName))
  let year := match r.date with
    | some d => if d = [] then none else firstFourDigitRun d
    | none => none
  let authorStr := joinSpace (auth.map (·.2))
  { key := r.key, title := r.title, date := r.date, doi := r.doi,
    isbn := r.isbn, authors := auth, year := year,
    search_string := fmtN r.title ++ ' ' :: authorStr ++ ' ' :: fmtN year }

/-- Lookup in a Python dict modelled as an association list in which the
most recently assigned binding comes first. -/
def lookupA (k : Str) (m : List (Str × LibItem)) : Option LibItem :=
  (m.find? (fun p => p.1 == k)).map (·.2)

/-- The Library Index (`ZoteroDatabase` after `_load_items`): the record
list in feed order plus the three lookup dicts. -/
structure ZoteroDB where
  items : List LibItem := []
  items_by_key : List (Str × LibItem) := []
  items_by_doi : List (Str × LibItem) := []
  items_by_isbn : List (Str × LibItem) := []
deriving Repr, DecidableEq

/-- Building the Library Index from the catalog feed (source lines
284–292).  Python dict assignment lets the latest insertion win, which the
association lists realize by reversing the insertion order; records with a
truthy DOI (resp. ISBN) are indexed under the normalized DOI (resp.
ISBN). -/
def buildDB (rows : List LibRow) : ZoteroDB :=
  let items := rows.map processRow
  { items := items
    items_by_key := (items.map (fun it => (it.key, it))).reverse
    items_by_doi := (items.filterMap (fun it =>
      match it.doi with
      | some d => if d = [] then none else some (normDOI d, it)
      | none => none)).reverse
    items_by_isbn := (items.filterMap (fun it =>
      match it.isbn with
      | some s => if s = [] then none else some (normISBN s, it)
      | none => none)).reverse }

/-- `rapidfuzz.process.extractOne` over a list of choice strings: track the
running best `(choice, score, index)` triple, replacing it only on a
strictly greater score (so the first maximum wins), and return it; `none`
on an empty choice list.  The scorer (`fuzz.token_set_ratio`) is an
external collaborator and is a parameter. -/
def extractOneAux (scorer : Str → Str → Nat) (q : Str) :
    List Str → Nat → Option (Str × Nat × Nat) → Option (Str × Nat × Nat)
  | [], _, best => best
  | c :: rest, i, best =>
    let s := scorer q c
    let best' := match best with
      | none => some (c, s, i)
      | some (bc, bs, bi) => if s > bs then some (c, s, i) else some (bc, bs, bi)
    extractOneAux scorer q rest (i + 1) best'

/-- `process.extractOne(q, choices, scorer=...)`. -/
def pyExtractOne (scorer : Str → Str → Nat) (q : Str) (choices : List Str) :
    Option (Str × Nat × Nat) :=
  extractOneAux scorer q choices 0 none

/-- A library record's title is truthy (`if item.get('title')`,
source line 344). -/
def titleTruthy (x : LibItem) : Bool :=
  match x.title with
  | some t => !t.isEmpty
  | none => false

/-- Match-method tag strings. -/
def mDOI : Str := "DOI".toList
/-- Match-method tag for ISBN hits. -/
def mISBN : Str := "ISBN".toList
/-- Match-method tag for composite fuzzy hits. -/
def mFuzzy : Str := "fuzzy".toList
/-- Match-method tag for title-only hits. -/
def mTitleOnly : Str := "title_only".toList

/-- The title-only stage of `find_match` (source lines 343–357): rescore on
titles of records with a truthy title, accept at the fixed threshold 90. -/
def findMatchTitleStage (db : ZoteroDB) (scorer : Str → Str → Nat)
    (it : CitationItem) : Except PyErr (Option LibItem × CitationItem) :=
  if it.title = [] then .ok (none, it)
  else
    let titled := db.items.filter titleTruthy
    match pyExtractOne scorer it.title (titled.map (fun x => x.title.getD [])) with
    | some (_, s2, i2) =>
      if 90 ≤ s2 then
        match titled[i2]? with
        | some chosen =>
          (match lookupA chosen.key db.items_by_key with
           | some r => .ok (some r, { it with match_method := mTitleOnly, match_score := s2 })
           | none => .error .keyErr)
        | none => .error .idxErr
      else .ok (none, it)
    | none => .ok (none, it)

/-- `ZoteroDatabase.find_match` (source lines 301–357), with the mutation
of `match_method`/`match_score` made explicit: the result pairs the
returned record (or `none`) with the possibly-updated citation item.
`KeyError` from `self.items_by_key[match_key]` is an `.error` (it is
unreachable when keys identify records uniquely). -/
def findMatch (db : ZoteroDB) (scorer : Str → Str → Nat)
    (it : CitationItem) (threshold : Nat) :
    Except PyErr (Option LibItem × CitationItem) :=
  match (if it.doi = [] then none else lookupA (normDOI it.doi) db.items_by_doi) with
  | some r => .ok (some r, { it with match_method := mDOI, match_score := 100 })
  | none =>
  match (if it.isbn = [] then none else lookupA (normISBN it.isbn) db.items_by_isbn) with
  | some r => .ok (some r, { it with match_method := mISBN, match_score := 100 })
  | none =>
  let sstr := searchString it
  if pyStrip sstr = [] then .ok (none, it)
  else if db.items = [] then .ok (none, it)
  else
    match pyExtractOne scorer sstr (db.items.map (·.search_string)) with
    | some (_, s, i) =>
      if threshold ≤ s then
        match db.items[i]? with
        | some chosen =>
          (match lookupA chosen.key db.items_by_key with
           | some r => .ok (some r, { it with match_method := mFuzzy, match_score := s })
           | none => .error .keyErr)
        | none => .error .idxErr
      else findMatchTitleStage db scorer it
    | none => findMatchTitleStage db scorer it

/-- Events of the markup element stream, as `extract_citations_from_docx`
iterates it (source lines 379–401): a `w:fldChar` with its (possibly
absent) `w:fldCharType` attribute, a `w:instrText` with its (possibly
absent) text, or any other element. -/
inductive DocxEvent where
  | fldChar (t : Option Str) : DocxEvent
  | instrText (txt : Option Str) : DocxEvent
  | otherElem : DocxEvent
deriving Repr, DecidableEq

/-- The attribute value `begin`. -/
def beginStr : Str := "begin".toList
/-- The attribute value `end`. -/
def endStr : Str := "end".toList

/-- The extractor's loop state (source lines 371–377). -/
structure ExtractState where
  in_field : Bool := false
  current : List Str := []
  field_index : Nat := 0
  citations : List Citation := []
deriving Repr, DecidableEq

/-- One iteration of the extractor loop (source lines 379–401): `begin`
enters the field and discards the buffer; `end` while inside joins the
buffer, parses it when it contains the marker, and resets; `end` while
outside is ignored (the `elif` also fails on the tag test); instruction
text is collected only inside a field and only when non-`None`. -/
def extractStep (decode : Str → Option Json) (st : ExtractState)
    (e : DocxEvent) : Except PyErr ExtractState :=
  match e with
  | .fldChar t =>
    if t = some beginStr then
      .ok { st with in_field := true, current := [] }
    else if t = some endStr && st.in_field then
      let code := st.current.flatten
      if containsSeq markerShort code then
        match fromFieldCode decode code st.field_index with
        | .error err => .error err
        | .ok (some c) =>
          .ok { st with in_field := false, current := [],
                        field_index := st.field_index + 1,
                        citations := st.citations ++ [c] }
        | .ok none => .ok { st with in_field := false, current := [] }
      else .ok { st with in_field := false, current := [] }
    else .ok st
  | .instrText txt =>
    if st.in_field then
      match txt with
      | some s => .ok { st with current := st.current ++ [s] }
      | none => .ok st
    else .ok st
  | .otherElem => .ok st

/-- The extractor loop from a given state. -/
def runFrom (decode : Str → Option Json) :
    ExtractState → List DocxEvent → Except PyErr ExtractState
  | st, [] => .ok st
  | st, e :: rest =>
    match extractStep decode st e with
    | .ok st' => runFrom decode st' rest
    | .error err => .error err

/-- `extract_citations_from_docx` over an event stream. -/
def runExtract (decode : Str → Option Json) (events : List DocxEvent) :
    Except PyErr ExtractState :=
  runFrom decode { } events

/-- The emitted citations of an extractor outcome, `none` when a Python
exception escaped the loop. -/
def citationsOf : Except PyErr ExtractState → Option (List Citation)
  | .ok st => some st.citations
  | .error _ => none

/-- The per-item flag update of `check_orphaned_status` (source lines
410–414): resolved iff the key is truthy and present in the key dict. -/
def checkItemOrphan (db : ZoteroDB) (it : CitationItem) : CitationItem :=
  { it with is_orphaned :=
      !(match it.item_key with
        | some k => !k.isEmpty && (lookupA k db.items_by_key).isSome
        | none => false) }

/-- `check_orphaned_status` (source lines 406–417), functionally: update
every item's flag, then flag each citation iff any of its items is
orphaned. -/
def checkOrphanedStatus (db : ZoteroDB) (cs : List Citation) : List Citation :=
  cs.map (fun c =>
    let its := c.items.map (checkItemOrphan db)
    { c with items := its, is_orphaned := its.any (·.is_orphaned) })

/-- Python `s.replace(o, n)`: replace the leftmost-nonoverlapping
occurrences of `o` by `n`; with an empty pattern, `n` is inserted before
every character and at the end, as CPython does. -/
def replaceAll (o n : Str) (s : Str) : Str :=
  if h : o = [] then n ++ s.flatMap (fun c => c :: n)
  else
    if leadsWith o s then n ++ replaceAll o n (s.drop o.length)
    else
      match s with
      | [] => []
      | c :: rest => c :: replaceAll o n rest
termination_by s.length
decreasing_by
  · simp only [List.length_drop]
    have hp : o.length ≤ s.length := by
      rename_i hlw
      clear h
      induction o generalizing s with
      | nil => simp
      | cons a as iha =>
        cases s with
        | nil => simp [leadsWith] at hlw
        | cons b bs =>
          simp only [leadsWith, Bool.and_eq_true] at hlw
          simpa [Nat.succ_le_succ_iff] using iha bs hlw.2
    have ho : 0 < o.length := by
      cases o with
      | nil => exact absurd rfl h
      | cons _ _ => simp
    omega
  · simp

/-- Python `s.split(o)` for a nonempty separator `o` (for an empty `o` the
degenerate `[s]` is returned; Python would raise `ValueError`, a case the
rewriter never reaches because it only splits on strings it found in the
document). -/
def pySplit (o : Str) (s : Str) : List Str :=
  if h : o = [] then [s]
  else
    if leadsWith o s then [] :: pySplit o (s.drop o.length)
    else
      match s with
      | [] => [[]]
      | c :: rest =>
        match pySplit o rest with
        | [] => [[c]]
        | seg :: segs => (c :: seg) :: segs
termination_by s.length
decreasing_by
  · simp only [List.length_drop]
    have hp : o.length ≤ s.length := by
      rename_i hlw
      clear h
      induction o generalizing s with
      | nil => simp
      | cons a as iha =>
        cases s with
        | nil => simp [leadsWith] at hlw
        | cons b bs =>
          simp only [leadsWith, Bool.and_eq_true] at hlw
          simpa [Nat.succ_le_succ_iff] using iha bs hlw.2
    have ho : 0 < o.length := by
      cases o with
      | nil => exact absurd rfl h
      | cons _ _ => simp
    omega
  · simp

/-- Join a list of segments with a separator (`sep.join(parts)`). -/
def joinWith (sep : Str) : List Str → Str
  | [] => []
  | [x] => x
  | x :: y :: rest => x ++ sep ++ joinWith sep (y :: rest)

/-- The rewrite loop of `update_docx_citations` (source lines 544–547):
for each `(old, new)` pair in mapping order, if `old` occurs in the
current text, replace every occurrence. -/
def updateContent (m : List (Str × Str)) (content : Str) : Str :=
  m.foldl (fun c p =>
    if containsSeq p.1 c then replaceAll p.1 p.2 c else c) content

/-! ### Concrete fixtures used by the witnesses and counterexamples -/

/-- Concrete library row for the C1 witness (spec §8's own example). -/
def rowC1 : LibRow := { key := "ABC1".toList, doi := some "10.1/xyz".toList }

/-- The Library Index of the C1 witness. -/
def dbC1 : ZoteroDB := buildDB [rowC1]

/-- The queried item of the C1 witness: upper-case DOI, no other content. -/
def itC1 : CitationItem := { doi := "10.1/XYZ".toList }

/-- Concrete library row for the C2 counterexample: a record whose ISBN
field `n/a` normalizes to the empty string, so the empty string is a key
of the ISBN map. -/
def rowC2 : LibRow := { key := "K1".toList, isbn := some "n/a".toList }

/-- The Library Index of the C2 counterexample. -/
def dbC2 : ZoteroDB := buildDB [rowC2]

/-- The queried item of the C2 counterexample: empty DOI and empty ISBN,
whose normalization (the empty string) is a key of the ISBN map. -/
def itC2 : CitationItem := {}

/-- Concrete library row for the C2 witness. -/
def rowC2b : LibRow := { key := "K2".toList, isbn := some "978-0306406157".toList }

/-- The Library Index of the C2 witness. -/
def dbC2b : ZoteroDB := buildDB [rowC2b]

/-- The queried item of the C2 witness: differently punctuated ISBN, same
normalization. -/
def itC2b : CitationItem := { isbn := "978 0306406157".toList }

/-- Concrete library row for the C3 witness. -/
def rowC3 : LibRow := { key := "TK1".toList, title := some "Gamma Delta".toList }

/-- The Library Index of the C3 witness. -/
def dbC3 : ZoteroDB := buildDB [rowC3]

/-- The queried item of the C3 witness: title only. -/
def itC3 : CitationItem := { title := "Gamma Delta".toList }

/-- Stub scorer of the C3 witness: 95 on equal strings, 10 otherwise; the
composite search strings differ (the record's carries the `None` year), so
the composite stage scores 75-like below threshold while titles agree. -/
def scorerC3 : Str → Str → Nat := fun a b => if a = b then 95 else 10

/-- The claim's orphan condition for one item: the key is null or absent
from the Library Index's key map. -/
def orphanSpecFlag (db : ZoteroDB) (it : CitationItem) : Bool :=
  match it.item_key with
  | none => true
  | some k => (lookupA k db.items_by_key).isNone

/-- Concrete library + citations of the C7 witness: one resolved key, one
unknown key, one null key. -/
def dbC7 : ZoteroDB := buildDB [{ key := "GOOD1".toList }]

/-- Citations of the C7 witness. -/
def csC7 : List Citation :=
  [{ field_code := [], field_index := 0,
     items := [{ item_key := some "GOOD1".toList },
               { item_key := some "LOST9".toList }] },
   { field_code := [], field_index := 1,
     items := [{ item_key := none }] }]

/-- The textual payload
`{"citationItems": [{"itemData": {"issued": {"date-parts": []}}}]}`
(braces assembled character-wise). -/
def badPayloadC4 : Str :=
  Char.ofNat 123 :: "\"citationItems\": [".toList ++
  Char.ofNat 123 :: "\"itemData\": ".toList ++
  Char.ofNat 123 :: "\"issued\": ".toList ++
  Char.ofNat 123 :: "\"date-parts\": []".toList ++
  [Char.ofNat 125, Char.ofNat 125, Char.ofNat 125, ']', Char.ofNat 125]

/-- The decoded form of `badPayloadC4`. -/
def badJsonC4 : Json :=
  .obj [("citationItems".toList, .arr [.obj [("itemData".toList,
    .obj [("issued".toList, .obj [("date-parts".toList, .arr [])])])]])]

/-- A decoder stub agreeing with `json.loads` on the one payload the
counterexample feeds it. -/
def decodeC4 : Str → Option Json :=
  fun s => if s = badPayloadC4 then some badJsonC4 else none

/-- The C4 counterexample field code: marker followed by `badPayloadC4`. -/
def fieldC4 : Str := markerFull ++ ' ' :: badPayloadC4

/-- The C9 counterexample `itemData`: no structured date, raw date
`May 2020`. -/
def mdC9 : List (Str × Json) := [("date".toList, Json.str "May 2020".toList)]

/-- The C9 witness `itemData`: structured year 2020. -/
def mdC9w : List (Str × Json) :=
  [("issued".toList, Json.obj
    [("date-parts".toList, Json.arr [Json.arr [Json.num 2020]])])]

/-! ### Helper lemmas -/

/-- `leadsWith` decides list prefixing. -/
theorem leadsWith_iff {p s : Str} : leadsWith p s = true ↔ p <+: s := by
  induction p generalizing s with
  | nil => simp [leadsWith]
  | cons a as ih =>
    cases s with
    | nil => simp [leadsWith]
    | cons b bs =>
      simp [leadsWith, ih, List.cons_prefix_cons]

/-- A prefix is no longer than the whole string. -/
theorem leadsWith_length {o s : Str} (h : leadsWith o s = true) :
    o.length ≤ s.length :=
  (leadsWith_iff.mp h).length_le

/-- `containsSeq` decides substring (infix) occurrence. -/
theorem containsSeq_iff {p s : Str} : containsSeq p s = true ↔ p <:+: s := by
  induction s with
  | nil => simp [containsSeq, List.isEmpty_iff]
  | cons c rest ih =>
    simp [containsSeq, leadsWith_iff, ih, List.infix_cons_iff]

/-- Soundness of the `extractOne` fold: any invariant that holds of the
initial accumulator and of every scanned `(choice, score, index)` triple
holds of the result. -/
theorem extractOneAux_sound (scorer : Str → Str → Nat) (q : Str)
    (P : Str × Nat × Nat → Prop) :
    ∀ (l : List Str) (i : Nat) (best : Option (Str × Nat × Nat)),
      (∀ b, best = some b → P b) →
      (∀ k, (hk : k < l.length) → P (l.get ⟨k, hk⟩, scorer q (l.get ⟨k, hk⟩), i + k)) →
      ∀ r, extractOneAux scorer q l i best = some r → P r := by
  intro l
  induction l with
  | nil =>
    intro i best hbest _ r hr
    exact hbest r hr
  | cons c rest ih =>
    intro i best hbest helems r hr
    simp only [extractOneAux] at hr
    refine ih (i + 1) _ ?_ ?_ r hr
    · intro b hb
      rcases hbestcase : best with _ | ⟨⟨bc, bs, bi⟩⟩
      · subst hbestcase
        simp only at hb
        cases hb
        simpa using helems 0 (by simp)
      · subst hbestcase
        simp only at hb
        split at hb <;> cases hb
        · simpa using helems 0 (by simp)
        · exact hbest _ rfl
    · intro k hk
      have := helems (k + 1) (by simpa using Nat.succ_lt_succ hk)
      simpa [Nat.add_assoc, Nat.add_comm 1 k] using this

/-- A successful `extractOne` returns a valid index, the choice at that
index, and that choice's score. -/
theorem pyExtractOne_spec (scorer : Str → Str → Nat) (q : Str) (l : List Str)
    (r : Str × Nat × Nat) (h : pyExtractOne scorer q l = some r) :
    r.2.2 < l.length ∧ l[r.2.2]? = some r.1 ∧ r.2.1 = scorer q r.1 := by
  refine extractOneAux_sound scorer q
    (fun r => r.2.2 < l.length ∧ l[r.2.2]? = some r.1 ∧ r.2.1 = scorer q r.1)
    l 0 none (by simp) ?_ r h
  intro k hk
  refine ⟨by simpa using hk, ?_, rfl⟩
  simp [List.getElem?_eq_getElem, hk]

/-- A successful `extractOne` returns a maximal score. -/
theorem extractOneAux_le (scorer : Str → Str → Nat) (q : Str) :
    ∀ (l : List Str) (i : Nat) (best : Option (Str × Nat × Nat)) r,
      extractOneAux scorer q l i best = some r →
      (∀ x ∈ l, scorer q x ≤ r.2.1) ∧ (∀ b, best = some b → b.2.1 ≤ r.2.1) := by
  intro l
  induction l with
  | nil =>
    intro i best r hr
    simp only [extractOneAux] at hr
    refine ⟨by simp, ?_⟩
    intro b hb
    rw [hb] at hr
    cases hr
    exact le_refl _
  | cons c rest ih =>
    intro i best r hr
    simp only [extractOneAux] at hr
    rcases hbc : best with _ | ⟨⟨bc, bs, bi⟩⟩ <;> subst hbc
    · simp only at hr
      obtain ⟨hrest, hacc⟩ := ih (i + 1) _ r hr
      have hs : scorer q c ≤ r.2.1 := by simpa using hacc _ rfl
      refine ⟨?_, by simp⟩
      intro x hx
      rcases List.mem_cons.mp hx with rfl | hx
      · exact hs
      · exact hrest x hx
    · simp only at hr
      split at hr
      · obtain ⟨hrest, hacc⟩ := ih (i + 1) _ r hr
        have hs : scorer q c ≤ r.2.1 := by simpa using hacc _ rfl
        refine ⟨?_, ?_⟩
        · intro x hx
          rcases List.mem_cons.mp hx with rfl | hx
          · exact hs
          · exact hrest x hx
        · intro b hb
          cases hb
          exact le_trans (le_of_lt (by assumption)) hs
      · obtain ⟨hrest, hacc⟩ := ih (i + 1) _ r hr
        have hbs : bs ≤ r.2.1 := by simpa using hacc _ rfl
        refine ⟨?_, ?_⟩
        · intro x hx
          rcases List.mem_cons.mp hx with rfl | hx
          · exact le_trans (Nat.le_of_not_lt (by assumption)) hbs
          · exact hrest x hx
        · intro b hb
          cases hb
          exact hbs

/-- Every choice scores at most the score `extractOne` returns. -/
theorem pyExtractOne_le (scorer : Str → Str → Nat) (q : Str) (l : List Str)
    (r : Str × Nat × Nat) (h : pyExtractOne scorer q l = some r) :
    ∀ x ∈ l, scorer q x ≤ r.2.1 :=
  (extractOneAux_le scorer q l 0 none r h).1

/-! ### C1: DOI exact match -/

/-- C1: for every `CitationItem` whose DOI is non-empty and whose
normalized (lower-cased, trimmed) DOI is a key of the Library Index's DOI
map, `find_match` returns that indexed record with `match_method = "DOI"`
and `match_score = 100`, for every threshold and scorer, regardless of the
item's title, authors, year, or ISBN content. -/
theorem find_match_doi_exact (db : ZoteroDB) (scorer : Str → Str → Nat)
    (it : CitationItem) (threshold : Nat) (r : LibItem)
    (hd : it.doi ≠ [])
    (hl : lookupA (normDOI it.doi) db.items_by_doi = some r) :
    findMatch db scorer it threshold =
      .ok (some r, { it with match_method := mDOI, match_score := 100 }) := by
  unfold findMatch
  simp [hd, hl]

/-- Witness for C1 at the spec's own example: DOI `10.1/XYZ` against an
index entry under `10.1/xyz`. -/
theorem find_match_doi_exact_witness :
    itC1.doi ≠ [] ∧
    findMatch dbC1 (fun _ _ => 0) itC1 80 =
      .ok (some (processRow rowC1),
           { itC1 with match_method := mDOI, match_score := 100 }) :=
  ⟨by decide, find_match_doi_exact dbC1 (fun _ _ => 0) itC1 80 (processRow rowC1)
    (by decide) (by rfl)⟩

/-! ### C2: ISBN exact match -/

/-- C2 (amended): for every `CitationItem` whose DOI is empty or misses
the DOI map, and whose ISBN is **non-empty** and normalizes (strip all
characters but digits and `X` after upper-casing) to a key of the ISBN
map, `find_match` returns that indexed record with `match_method = "ISBN"`
and `match_score = 100`. -/
theorem find_match_isbn_exact (db : ZoteroDB) (scorer : Str → Str → Nat)
    (it : CitationItem) (threshold : Nat) (r : LibItem)
    (hdoimiss : it.doi = [] ∨ lookupA (normDOI it.doi) db.items_by_doi = none)
    (hi : it.isbn ≠ [])
    (hl : lookupA (normISBN it.isbn) db.items_by_isbn = some r) :
    findMatch db scorer it threshold =
      .ok (some r, { it with match_method := mISBN, match_score := 100 }) := by
  unfold findMatch
  rcases hdoimiss with hd | hd <;> simp [hd, hi, hl]

/-- Counterexample to C2 as stated: `itC2` has an empty DOI and an ISBN
whose normalization is a key of the ISBN map, yet `find_match` returns no
match at all (the code guards the ISBN stage with Python truthiness of the
raw ISBN, not of its normalization). -/
theorem find_match_isbn_exact_counterexample :
    itC2.doi = [] ∧
    lookupA (normISBN itC2.isbn) dbC2.items_by_isbn = some (processRow rowC2) ∧
    findMatch dbC2 (fun _ _ => 0) itC2 80 = .ok (none, itC2) :=
  ⟨rfl, by rfl, by rfl⟩

/-- Witness for the amended C2: a space-punctuated ISBN matches the index
entry stored under its dash-punctuated form. -/
theorem find_match_isbn_exact_witness :
    itC2b.doi = [] ∧ itC2b.isbn ≠ [] ∧
    findMatch dbC2b (fun _ _ => 0) itC2b 80 =
      .ok (some (processRow rowC2b),
           { itC2b with match_method := mISBN, match_score := 100 }) :=
  ⟨rfl, by decide, find_match_isbn_exact dbC2b (fun _ _ => 0) itC2b 80
    (processRow rowC2b) (Or.inl rfl) (by decide) (by rfl)⟩

/-! ### C10: a missed match leaves the item untouched -/

/-- The title-only stage never touches the item when it misses. -/
theorem find_match_title_none_unchanged (db : ZoteroDB)
    (scorer : Str → Str → Nat) (it : CitationItem)
    (p : Option LibItem × CitationItem)
    (h : findMatchTitleStage db scorer it = .ok p) (hn : p.1 = none) :
    p.2 = it := by
  simp only [findMatchTitleStage] at h
  by_cases ht : it.title = []
  · rw [if_pos ht] at h
    cases h
    rfl
  · rw [if_neg ht] at h
    cases hext : pyExtractOne scorer it.title
        ((db.items.filter titleTruthy).map (fun x => x.title.getD [])) with
    | none =>
      simp only [hext] at h
      cases h
      rfl
    | some t =>
      obtain ⟨c2, s2, i2⟩ := t
      simp only [hext] at h
      by_cases h90 : 90 ≤ s2
      · rw [if_pos h90] at h
        cases hidx : (db.items.filter titleTruthy)[i2]? with
        | some chosen =>
          simp only [hidx] at h
          cases hkey : lookupA chosen.key db.items_by_key with
          | some r =>
            simp only [hkey] at h
            cases h
            simp at hn
          | none =>
            simp only [hkey] at h
            cases h
        | none =>
          simp only [hidx] at h
          cases h
      · rw [if_neg h90] at h
        cases h
        rfl

/-- C10: whenever `find_match` returns without a match (and without
raising), the queried item is returned entirely unchanged — in particular
`match_method` and `match_score` keep their prior values; the two fields
are mutated only on the success paths. -/
theorem find_match_none_unchanged (db : ZoteroDB) (scorer : Str → Str → Nat)
    (it : CitationItem) (threshold : Nat) (p : Option LibItem × CitationItem)
    (h : findMatch db scorer it threshold = .ok p) (hn : p.1 = none) :
    p.2 = it := by
  simp only [findMatch] at h
  cases hdoi : (if it.doi = [] then none else lookupA (normDOI it.doi) db.items_by_doi) with
  | some r =>
    simp only [hdoi] at h
    cases h
    simp at hn
  | none =>
  simp only [hdoi] at h
  cases hisbn : (if it.isbn = [] then none else lookupA (normISBN it.isbn) db.items_by_isbn) with
  | some r =>
    simp only [hisbn] at h
    cases h
    simp at hn
  | none =>
  simp only [hisbn] at h
  by_cases hblank : pyStrip (searchString it) = []
  · rw [if_pos hblank] at h
    cases h
    rfl
  · rw [if_neg hblank] at h
    by_cases hempty : db.items = []
    · rw [if_pos hempty] at h
      cases h
      rfl
    · rw [if_neg hempty] at h
      cases hext : pyExtractOne scorer (searchString it)
          (db.items.map (·.search_string)) with
      | none =>
        simp only [hext] at h
        exact find_match_title_none_unchanged db scorer it p h hn
      | some t =>
        obtain ⟨c, s, i⟩ := t
        simp only [hext] at h
        by_cases hth : threshold ≤ s
        · rw [if_pos hth] at h
          cases hidx : db.items[i]? with
          | some chosen =>
            simp only [hidx] at h
            cases hkey : lookupA chosen.key db.items_by_key with
            | some r =>
              simp only [hkey] at h
              cases h
              simp at hn
            | none =>
              simp only [hkey] at h
              cases h
          | none =>
            simp only [hidx] at h
            cases h
        · rw [if_neg hth] at h
          exact find_match_title_none_unchanged db scorer it p h hn

/-- Witness for C10: an empty library yields no match and an unchanged
item. -/
theorem find_match_none_unchanged_witness :
    findMatch {} (fun _ _ => 0) { title := "T".toList } 80 =
      .ok (none, { title := "T".toList }) ∧
    ((none, ({ title := "T".toList } : CitationItem)) :
        Option LibItem × CitationItem).2 = { title := "T".toList } :=
  ⟨by rfl, find_match_none_unchanged {} (fun _ _ => 0) { title := "T".toList } 80
    (none, { title := "T".toList }) (by rfl) rfl⟩

/-! ### C3: title-only fuzzy fallback -/

/-- C3: with no DOI/ISBN hit, a non-blank search string, a best composite
fuzzy score below the caller's threshold and a best title-only score of at
least 90, `find_match` returns the first best title-only record with
method `title_only` and that score — the title-only acceptance threshold
is the fixed 90, whatever the caller-supplied threshold.  The final
conjunct certifies that the returned score is maximal over all titled
records.  (`hkey` is the Library-Index invariant that a record's unique
key looks itself up; `hblank` is implied by any real token-set scorer
reaching 90, since a whitespace-only search string has no tokens.) -/
theorem find_match_title_only
    (db : ZoteroDB) (scorer : Str → Str → Nat) (it : CitationItem)
    (threshold : Nat) (c : Str) (s : Nat) (i : Nat)
    (c2 : Str) (s2 : Nat) (i2 : Nat)
    (hkey : ∀ x ∈ db.items, lookupA x.key db.items_by_key = some x)
    (hdoimiss : it.doi = [] ∨ lookupA (normDOI it.doi) db.items_by_doi = none)
    (hisbnmiss : it.isbn = [] ∨ lookupA (normISBN it.isbn) db.items_by_isbn = none)
    (hblank : pyStrip (searchString it) ≠ [])
    (hcomp : pyExtractOne scorer (searchString it)
      (db.items.map (·.search_string)) = some (c, s, i))
    (hlow : s < threshold)
    (htitle : it.title ≠ [])
    (htit : pyExtractOne scorer it.title
      ((db.items.filter titleTruthy).map (fun x => x.title.getD [])) = some (c2, s2, i2))
    (hhigh : 90 ≤ s2) :
    ∃ r, (db.items.filter titleTruthy)[i2]? = some r ∧
      findMatch db scorer it threshold =
        .ok (some r, { it with match_method := mTitleOnly, match_score := s2 }) ∧
      ∀ t ∈ (db.items.filter titleTruthy).map (fun x => x.title.getD []),
        scorer it.title t ≤ s2 := by
  have hspec := pyExtractOne_spec scorer it.title _ _ htit
  have hi2 : i2 < (db.items.filter titleTruthy).length := by
    simpa using hspec.1
  set chosen := (db.items.filter titleTruthy)[i2] with hchdef
  have hchosen : (db.items.filter titleTruthy)[i2]? = some chosen :=
    List.getElem?_eq_getElem hi2
  have hmemf : chosen ∈ db.items.filter titleTruthy := by
    rw [hchdef]
    exact List.getElem_mem hi2
  have hmem : chosen ∈ db.items := List.mem_of_mem_filter hmemf
  have hempty : db.items ≠ [] := by
    intro he
    rw [he] at hcomp
    simp [pyExtractOne, extractOneAux] at hcomp
  have hdoi0 : (if it.doi = [] then none
      else lookupA (normDOI it.doi) db.items_by_doi) = none := by
    rcases hdoimiss with hd | hd
    · rw [if_pos hd]
    · by_cases hde : it.doi = []
      · rw [if_pos hde]
      · rw [if_neg hde]; exact hd
  have hisbn0 : (if it.isbn = [] then none
      else lookupA (normISBN it.isbn) db.items_by_isbn) = none := by
    rcases hisbnmiss with hd | hd
    · rw [if_pos hd]
    · by_cases hde : it.isbn = []
      · rw [if_pos hde]
      · rw [if_neg hde]; exact hd
  refine ⟨chosen, hchosen, ?_, ?_⟩
  · simp only [findMatch, hdoi0, hisbn0, if_neg hblank, if_neg hempty, hcomp,
      if_neg (Nat.not_le.mpr hlow), findMatchTitleStage, if_neg htitle, htit,
      if_pos hhigh, hchosen, hkey chosen hmem]
  · intro t ht
    simpa using pyExtractOne_le scorer it.title _ _ htit t ht

/-- Witness for C3: threshold 80, composite best 10 < 80, title-only best
95 ≥ 90 ⇒ method `title_only`, score 95. -/
theorem find_match_title_only_witness :
    (10 : Nat) < 80 ∧ (90 : Nat) ≤ 95 ∧
    (∃ r, (dbC3.items.filter titleTruthy)[0]? = some r ∧
      findMatch dbC3 scorerC3 itC3 80 =
        .ok (some r, { itC3 with match_method := mTitleOnly, match_score := 95 }) ∧
      ∀ t ∈ (dbC3.items.filter titleTruthy).map (fun x => x.title.getD []),
        scorerC3 itC3.title t ≤ 95) :=
  ⟨by decide, by decide,
   find_match_title_only dbC3 scorerC3 itC3 80
     "Gamma Delta  None".toList 10 0 "Gamma Delta".toList 95 0
     (by decide) (Or.inl rfl) (Or.inl rfl) (by decide) (by rfl)
     (by decide) (by decide) (by rfl) (by decide)⟩

/-! ### C7: orphan classification -/

/-- C7: the classifier sets each item's flag to true iff its key is null
or not present in the key map, sets each citation's flag to true iff some
of its items is orphaned, and is idempotent.  The hypothesis `hk` excludes
an empty-string key, which the parser can never produce (the key pattern
requires a nonempty alphanumeric group; see the C5 theorem) but which
Python's truthiness test would classify as orphaned even when present in
the map. -/
theorem check_orphaned_spec (db : ZoteroDB) (cs : List Citation)
    (hk : ∀ c ∈ cs, ∀ it₀ ∈ c.items, it₀.item_key ≠ some []) :
    checkOrphanedStatus db cs = cs.map (fun c =>
      let its := c.items.map (fun it₀ =>
        { it₀ with is_orphaned := orphanSpecFlag db it₀ })
      { c with items := its, is_orphaned := its.any (·.is_orphaned) }) ∧
    checkOrphanedStatus db (checkOrphanedStatus db cs) =
      checkOrphanedStatus db cs := by
  constructor
  · unfold checkOrphanedStatus
    apply List.map_congr_left
    intro c hc
    have hitem : ∀ it₀ ∈ c.items, checkItemOrphan db it₀ =
        { it₀ with is_orphaned := orphanSpecFlag db it₀ } := by
      intro it₀ hit
      have hne := hk c hc it₀ hit
      unfold checkItemOrphan orphanSpecFlag
      cases hkey : it₀.item_key with
      | none => simp
      | some k =>
        cases k with
        | nil => exact absurd hkey hne
        | cons a as =>
          simp [List.isEmpty, Option.isNone_iff_eq_none]
    simp only [List.map_congr_left hitem]
  · unfold checkOrphanedStatus
    rw [List.map_map]
    apply List.map_congr_left
    intro c _
    simp only [Function.comp]
    have : ∀ l : List CitationItem,
        (l.map (checkItemOrphan db)).map (checkItemOrphan db) =
          l.map (checkItemOrphan db) := by
      intro l
      rw [List.map_map]
      apply List.map_congr_left
      intro it₀ _
      simp [checkItemOrphan]
    simp [this]

/-- Witness for C7 on a three-item example. -/
theorem check_orphaned_spec_witness :
    checkOrphanedStatus dbC7 csC7 = csC7.map (fun c =>
      let its := c.items.map (fun it₀ =>
        { it₀ with is_orphaned := orphanSpecFlag dbC7 it₀ })
      { c with items := its, is_orphaned := its.any (·.is_orphaned) }) ∧
    checkOrphanedStatus dbC7 (checkOrphanedStatus dbC7 csC7) =
      checkOrphanedStatus dbC7 csC7 :=
  check_orphaned_spec dbC7 csC7 (by decide)

/-! ### C5: item key from the first matching URI -/

/-- C5: (1) a successful key extraction captures exactly a nonempty
alphanumeric trailing segment preceded by `/items/`; (2) the key loop
yields null iff no URI matches (in particular on an empty list); (3) a
non-null key comes from the **first** matching URI, all URIs before it
failing the pattern — so the key is always derived from `uris`, never
invented. -/
theorem item_key_first_match :
    (∀ u k, extractItemKey u = some k →
      k ≠ [] ∧ (∀ x ∈ k, isAlnumAscii x = true) ∧ ∃ t, u = t ++ slashItems ++ k) ∧
    (∀ uris : List Str,
      (computeKey uris = none ↔ ∀ u ∈ uris, extractItemKey u = none)) ∧
    (∀ (uris : List Str) k, computeKey uris = some k →
      ∃ preU u postU, uris = preU ++ u :: postU ∧ extractItemKey u = some k ∧
        ∀ v ∈ preU, extractItemKey v = none) := by
  refine ⟨?_, ?_, ?_⟩
  · intro u k h
    simp only [extractItemKey] at h
    split at h
    · rename_i hcond
      cases h
      simp only [Bool.and_eq_true, decide_eq_true_eq] at hcond
      obtain ⟨hne, hpre⟩ := hcond
      refine ⟨hne, ?_, ?_⟩
      · intro x hx
        rw [List.mem_reverse] at hx
        exact List.mem_takeWhile_imp hx
      · have hsuf := leadsWith_iff.mp hpre
        rw [List.reverse_prefix] at hsuf
        obtain ⟨t, ht⟩ := hsuf
        rw [← List.append_assoc] at ht
        exact ⟨t, ht.symm⟩
    · cases h
  · intro uris
    induction uris with
    | nil => simp [computeKey]
    | cons u rest ih =>
      cases hu : extractItemKey u with
      | some k0 => simp [computeKey, hu]
      | none => simp [computeKey, hu, ih]
  · intro uris
    induction uris with
    | nil =>
      intro k h
      simp [computeKey] at h
    | cons u rest ih =>
      intro k h
      cases hu : extractItemKey u with
      | some k0 =>
        simp only [computeKey, hu] at h
        cases h
        exact ⟨[], u, rest, rfl, hu, by simp⟩
      | none =>
        simp only [computeKey, hu] at h
        obtain ⟨preU, u', postU, heq, hu', hpre⟩ := ih k h
        refine ⟨u :: preU, u', postU, by rw [heq]; rfl, hu', ?_⟩
        intro v hv
        rcases List.mem_cons.mp hv with rfl | hv
        · exact hu
        · exact hpre v hv

/-- Witness for C5: the first URI fails the pattern, the second matches
and supplies the key. -/
theorem item_key_first_match_witness :
    computeKey ["http://zotero.org/groups/4".toList,
                "http://zotero.org/users/12/items/AB12".toList] =
      some "AB12".toList ∧
    (∃ preU u postU,
      ["http://zotero.org/groups/4".toList,
       "http://zotero.org/users/12/items/AB12".toList] = preU ++ u :: postU ∧
      extractItemKey u = some "AB12".toList ∧
      ∀ v ∈ preU, extractItemKey v = none) :=
  ⟨by rfl, item_key_first_match.2.2 _ _ (by rfl)⟩

/-! ### C6: extractor tolerance of malformed field structure -/

/-- The extractor loop splits over list append. -/
theorem runFrom_append (decode : Str → Option Json) :
    ∀ (l1 l2 : List DocxEvent) (st : ExtractState),
      runFrom decode st (l1 ++ l2) =
        match runFrom decode st l1 with
        | .ok st' => runFrom decode st' l2
        | .error e => .error e := by
  intro l1
  induction l1 with
  | nil => intro l2 st; rfl
  | cons e rest ih =>
    intro l2 st
    show runFrom decode st (e :: (rest ++ l2)) = _
    simp only [runFrom]
    cases extractStep decode st e with
    | ok st' => exact ih l2 st'
    | error err => rfl

/-- Events that are not an `end` field marker never emit, never raise and
never change the collected citations. -/
theorem runFrom_no_end (decode : Str → Option Json) :
    ∀ (post : List DocxEvent) (st : ExtractState),
      (∀ e ∈ post, e ≠ DocxEvent.fldChar (some endStr)) →
      ∃ st', runFrom decode st post = .ok st' ∧ st'.citations = st.citations := by
  intro post
  induction post with
  | nil => intro st _; exact ⟨st, rfl, rfl⟩
  | cons e rest ih =>
    intro st hne
    have he : e ≠ DocxEvent.fldChar (some endStr) := hne e (by simp)
    have hrest : ∀ e' ∈ rest, e' ≠ DocxEvent.fldChar (some endStr) := by
      intro e' he'
      exact hne e' (List.mem_cons_of_mem _ he')
    have hstep : ∃ st1, extractStep decode st e = .ok st1 ∧
        st1.citations = st.citations := by
      cases e with
      | fldChar t =>
        by_cases hb : t = some beginStr
        · exact ⟨{ st with in_field := true, current := [] },
            by simp [extractStep, hb], rfl⟩
        · have hter : t ≠ some endStr := by
            intro hte
            exact he (by rw [hte])
          refine ⟨st, ?_, rfl⟩
          simp [extractStep, hb, hter]
      | instrText txt =>
        cases txt with
        | some s =>
          by_cases hin : st.in_field
          · exact ⟨{ st with current := st.current ++ [s] },
              by simp [extractStep, hin], rfl⟩
          · exact ⟨st, by simp [extractStep, hin], rfl⟩
        | none =>
          by_cases hin : st.in_field
          · exact ⟨st, by simp [extractStep, hin], rfl⟩
          · exact ⟨st, by simp [extractStep, hin], rfl⟩
      | otherElem => exact ⟨st, rfl, rfl⟩
    obtain ⟨st1, hstep1, hcit1⟩ := hstep
    obtain ⟨st', hrun, hcit⟩ := ih st1 hrest
    refine ⟨st', ?_, by rw [hcit, hcit1]⟩
    simp only [runFrom, hstep1]
    exact hrun

/-- C6: the field-code extractor tolerates malformed structure: an `end`
marker outside any field is a no-op; a `begin` marker discards any
previously accumulated partial buffer; and a `begin` with no matching
`end` before the stream's end contributes no partial emission. -/
theorem extractor_malformed_tolerance (decode : Str → Option Json) :
    (∀ st : ExtractState, st.in_field = false →
      extractStep decode st (.fldChar (some endStr)) = .ok st) ∧
    (∀ st : ExtractState,
      extractStep decode st (.fldChar (some beginStr)) =
        .ok { st with in_field := true, current := [] }) ∧
    (∀ pre post : List DocxEvent,
      (∀ e ∈ post, e ≠ DocxEvent.fldChar (some endStr)) →
      citationsOf (runExtract decode
          (pre ++ DocxEvent.fldChar (some beginStr) :: post)) =
        citationsOf (runExtract decode pre)) := by
  refine ⟨?_, ?_, ?_⟩
  · intro st hin
    simp [extractStep, hin, beginStr, endStr]
  · intro st
    simp [extractStep]
  · intro pre post hne
    unfold runExtract
    rw [runFrom_append]
    cases hpre : runFrom decode { } pre with
    | error e => rfl
    | ok st =>
      have hbegin : extractStep decode st (.fldChar (some beginStr)) =
          .ok { st with in_field := true, current := [] } := by
        simp [extractStep]
      simp only [runFrom, hbegin]
      obtain ⟨st', hrun, hcit⟩ :=
        runFrom_no_end decode post { st with in_field := true, current := [] } hne
      rw [hrun]
      simp [citationsOf, hcit]

/-- Witness for C6: an `end` with no preceding `begin` is ignored, and a
trailing unterminated field emits nothing. -/
theorem extractor_malformed_tolerance_witness :
    extractStep (fun _ => none) { } (.fldChar (some endStr)) = .ok { } ∧
    citationsOf (runExtract (fun _ => none)
        ([] ++ DocxEvent.fldChar (some beginStr) ::
          [DocxEvent.instrText (some "leftover".toList)])) =
      citationsOf (runExtract (fun _ => none) []) :=
  ⟨(extractor_malformed_tolerance (fun _ => none)).1 { } rfl,
   (extractor_malformed_tolerance (fun _ => none)).2.2 []
     [DocxEvent.instrText (some "leftover".toList)] (by decide)⟩

/-! ### C4: parser error behaviour -/

/-- C4 (amended): `from_field_code` never raises on the structural-skip
paths — a field without the citation-marker regex match, or whose payload
the JSON decoder rejects, yields absence (with a diagnostic), for every
decoder.  (Decoded payloads of unexpected shape can still raise; see the
counterexample.) -/
theorem from_field_code_skip_paths (decode : Str → Option Json) (s : Str)
    (idx : Nat) :
    (findPayload s = none → fromFieldCode decode s idx = .ok none) ∧
    (∀ j, findPayload s = some j → decode j = none →
      fromFieldCode decode s idx = .ok none) := by
  constructor
  · intro h
    simp [fromFieldCode, h]
  · intro j h hd
    simp [fromFieldCode, h, hd]

/-- Counterexample to C4 as stated: a field whose JSON decodes fine but
carries an **empty** `issued.date-parts` list makes `from_field_code`
raise `IndexError` (`[0]` on an empty list, source line 138) instead of
returning a `Citation` or absence. -/
theorem from_field_code_counterexample :
    findPayload fieldC4 = some badPayloadC4 ∧
    decodeC4 badPayloadC4 = some badJsonC4 ∧
    fromFieldCode decodeC4 fieldC4 0 = .error .idxErr :=
  ⟨by rfl, by rfl, by rfl⟩

/-- Witness for the amended C4: a marker-less field and an undecodable
payload are both skipped, not raised. -/
theorem from_field_code_skip_paths_witness :
    (findPayload "just text".toList = none ∧
     fromFieldCode decodeC4 "just text".toList 0 = .ok none) ∧
    (findPayload fieldC4 = some badPayloadC4 ∧
     fromFieldCode (fun _ => none) fieldC4 0 = .ok none) :=
  ⟨⟨by rfl, (from_field_code_skip_paths decodeC4 "just text".toList 0).1 (by rfl)⟩,
   ⟨by rfl, (from_field_code_skip_paths (fun _ => none) fieldC4 0).2
      badPayloadC4 (by rfl) rfl⟩⟩

/-! ### C9: year derivation -/

/-- `Nat.toDigitsCore` never shrinks its accumulator. -/
theorem toDigitsCore_length_mono (b : Nat) :
    ∀ (f n : Nat) (l : List Char),
      l.length ≤ (Nat.toDigitsCore b f n l).length := by
  intro f
  induction f with
  | zero => intro n l; simp [Nat.toDigitsCore]
  | succ f ih =>
    intro n l
    simp only [Nat.toDigitsCore]
    split
    · simp
    · exact le_trans (by simp) (ih (n / b) (Nat.digitChar (n % b) :: l))

/-- The decimal rendering of a natural number is nonempty. -/
theorem natStr_ne_nil (n : Nat) : natStr n ≠ [] := by
  unfold natStr Nat.toDigits
  simp only [Nat.toDigitsCore]
  split
  · simp
  · intro h
    have hm := toDigitsCore_length_mono 10 n (n / 10) [Nat.digitChar (n % 10)]
    rw [h] at hm
    simp at hm

/-- Python `str(i)` of an integer is nonempty. -/
theorem intStr_ne_nil (i : Int) : intStr i ≠ [] := by
  unfold intStr
  intro h
  rcases List.append_eq_nil.mp h with ⟨-, h2⟩
  exact natStr_ne_nil _ h2

/-- C9 (amended): the item year equals `str(·)` of the structured
`issued.date-parts` year when a truthy one is present; otherwise, with a
non-empty raw `date` string present, it equals the **first four
characters** of that raw date string (not its leading four digits);
otherwise it is empty. -/
theorem year_derivation (md : List (Str × Json)) :
    (∀ (io : List (Str × Json)) (y : Int) (restA restB : List Json),
      jsonGet md "issued".toList = some (.obj io) →
      jsonGet io "date-parts".toList = some (.arr (.arr (.num y :: restA) :: restB)) →
      y ≠ 0 →
      extractYear md = .ok (intStr y)) ∧
    (∀ d : Str, jsonGet md "issued".toList = none →
      jsonGet md "date".toList = some (.str d) → d ≠ [] →
      extractYear md = .ok (d.take 4)) ∧
    (jsonGet md "issued".toList = none →
      (jsonGet md "date".toList = none ∨ jsonGet md "date".toList = some (.str [])) →
      extractYear md = .ok []) := by
  refine ⟨?_, ?_, ?_⟩
  · intro io y restA restB hio hdp hy
    unfold extractYear
    rw [hio]
    simp only [hdp]
    simp [pyIndex0, jsonTruthy, hy, pyStrOfJson, intStr_ne_nil y]
  · intro d hio hdate hd
    unfold extractYear
    rw [hio, hdate]
    simp [jsonTruthy, hd]
  · intro hio hdor
    rcases hdor with h | h <;>
      (unfold extractYear; rw [hio, h]; simp [jsonTruthy])

/-- Counterexample to C9 as stated: with raw date `May 2020` the code
takes the first four **characters**, yielding `"May "`, which is not the
leading four digits (`"2020"`) and is not even made of digits. -/
theorem year_derivation_counterexample :
    extractYear mdC9 = .ok "May ".toList ∧
    "May ".toList ≠ "2020".toList ∧
    ("May ".toList.all Char.isDigit) = false :=
  ⟨by rfl, by decide, by decide⟩

/-- Witness for the amended C9: a structured year 2020 yields `"2020"`. -/
theorem year_derivation_witness :
    extractYear mdC9w = .ok (intStr 2020) ∧ intStr 2020 = "2020".toList :=
  ⟨(year_derivation mdC9w).1
      [("date-parts".toList, Json.arr [Json.arr [Json.num 2020]])]
      2020 [] [] rfl rfl (by decide),
   by rfl⟩

/-! ### C8: identifier rewriting -/

/-- `pySplit` always yields at least one segment. -/
theorem pySplit_ne_nil (o s : Str) : pySplit o s ≠ [] := by
  unfold pySplit
  split
  · simp
  · split
    · simp
    · split
      · simp
      · split <;> simp

/-- Joining pulls a head character out of the first segment. -/
theorem joinWith_cons_cons (sep : Str) (c : Char) (x : Str) (l : List Str) :
    joinWith sep ((c :: x) :: l) = c :: joinWith sep (x :: l) := by
  cases l <;> simp [joinWith]

/-- Joining after an empty first segment prepends the separator. -/
theorem joinWith_nil_cons (sep : Str) (l : List Str) (hl : l ≠ []) :
    joinWith sep ([] :: l) = sep ++ joinWith sep l := by
  cases l with
  | nil => exact absurd rfl hl
  | cons y rest => simp [joinWith]

/-- The three structural facts about Python's `replace`/`split` pair for a
nonempty pattern: `replace` is the `split` segments joined by the
replacement, the segments joined by the pattern reconstruct the original
text byte for byte, and no segment contains the pattern. -/
theorem pySplit_props (o n : Str) (ho : o ≠ []) (s : Str) :
    replaceAll o n s = joinWith n (pySplit o s) ∧
    joinWith o (pySplit o s) = s ∧
    ∀ seg ∈ pySplit o s, containsSeq o seg = false := by
  have H : ∀ (L : Nat) (s : Str), s.length = L →
      replaceAll o n s = joinWith n (pySplit o s) ∧
      joinWith o (pySplit o s) = s ∧
      ∀ seg ∈ pySplit o s, containsSeq o seg = false := by
    intro L
    induction L using Nat.strong_induction_on with
    | _ L ih =>
      intro s hL
      by_cases hlw : leadsWith o s = true
      · have hole : o.length ≤ s.length := leadsWith_length hlw
        have hopos : 0 < o.length := List.length_pos.mpr ho
        have hlt : (s.drop o.length).length < L := by
          simp only [List.length_drop]
          omega
        obtain ⟨R1, R2, R3⟩ := ih _ hlt (s.drop o.length) rfl
        have e1 : replaceAll o n s = n ++ replaceAll o n (s.drop o.length) := by
          conv_lhs => rw [replaceAll.eq_def]
          rw [dif_neg ho, if_pos hlw]
        have e2 : pySplit o s = [] :: pySplit o (s.drop o.length) := by
          conv_lhs => rw [pySplit.eq_def]
          rw [dif_neg ho, if_pos hlw]
        have hrecon : o ++ s.drop o.length = s := by
          obtain ⟨t, ht⟩ := leadsWith_iff.mp hlw
          rw [← ht, List.drop_left]
        refine ⟨?_, ?_, ?_⟩
        · rw [e1, e2, R1, joinWith_nil_cons n _ (pySplit_ne_nil o _)]
        · rw [e2, joinWith_nil_cons o _ (pySplit_ne_nil o _), R2, hrecon]
        · rw [e2]
          intro seg hseg
          rcases List.mem_cons.mp hseg with rfl | hseg
          · simpa [containsSeq, List.isEmpty_iff] using ho
          · exact R3 seg hseg
      · rw [Bool.not_eq_true] at hlw
        cases s with
        | nil =>
          have e1 : replaceAll o n [] = [] := by
            conv_lhs => rw [replaceAll.eq_def]
            rw [dif_neg ho, if_neg (by simp [hlw])]
          have e2 : pySplit o [] = [[]] := by
            conv_lhs => rw [pySplit.eq_def]
            rw [dif_neg ho, if_neg (by simp [hlw])]
          refine ⟨?_, ?_, ?_⟩
          · rw [e1, e2]; rfl
          · rw [e2]; rfl
          · rw [e2]
            intro seg hseg
            rcases List.mem_cons.mp hseg with rfl | hseg
            · simpa [containsSeq, List.isEmpty_iff] using ho
            · simp at hseg
        | cons c rest =>
          have hlt : rest.length < L := by simp [← hL]
          obtain ⟨R1, R2, R3⟩ := ih _ hlt rest rfl
          cases heq : pySplit o rest with
          | nil => exact absurd heq (pySplit_ne_nil o rest)
          | cons seg0 segs0 =>
            have e1 : replaceAll o n (c :: rest) = c :: replaceAll o n rest := by
              conv_lhs => rw [replaceAll.eq_def]
              rw [dif_neg ho, if_neg (by simp [hlw])]
            have e2 : pySplit o (c :: rest) = (c :: seg0) :: segs0 := by
              conv_lhs => rw [pySplit.eq_def]
              rw [dif_neg ho, if_neg (by simp [hlw])]
              simp only [heq]
            have hpre0 : seg0 <+: rest := by
              have hR2 := R2
              rw [heq] at hR2
              cases segs0 with
              | nil =>
                simp only [joinWith] at hR2
                rw [hR2]
              | cons z zs =>
                refine ⟨o ++ joinWith o (z :: zs), ?_⟩
                rw [← hR2]
                simp [joinWith, List.append_assoc]
            refine ⟨?_, ?_, ?_⟩
            · rw [e1, e2, R1, heq, joinWith_cons_cons]
            · rw [e2, joinWith_cons_cons, ← heq, R2]
            · rw [e2]
              intro seg hseg
              rcases List.mem_cons.mp hseg with rfl | hseg
              · have hs0 : containsSeq o seg0 = false :=
                  R3 seg0 (by rw [heq]; exact List.mem_cons_self _ _)
                have hlw0 : leadsWith o (c :: seg0) = false := by
                  by_contra hcontra
                  rw [Bool.not_eq_false] at hcontra
                  cases o with
                  | nil => exact ho rfl
                  | cons a o2 =>
                    simp only [leadsWith, Bool.and_eq_true,
                      decide_eq_true_eq] at hcontra
                    obtain ⟨rfl, hp2⟩ := hcontra
                    have h2r : leadsWith o2 rest = true :=
                      leadsWith_iff.mpr ((leadsWith_iff.mp hp2).trans hpre0)
                    have : leadsWith (a :: o2) (a :: rest) = true := by
                      simp [leadsWith, h2r]
                    rw [this] at hlw
                    cases hlw
                simp [containsSeq, hlw0, hs0]
              · exact R3 seg (by rw [heq]; exact List.mem_cons_of_mem _ hseg)
  exact H s.length s rfl

/-- C8: identifier rewriting changes only exact occurrences of the old
identifiers and leaves every other byte unchanged: an empty mapping is the
identity; a mapping none of whose old identifiers occurs in the text is
the identity (byte-identical output); and each single replacement step
equals the occurrence-segments of the text joined by the new identifier,
where the segments both reconstruct the original text verbatim and contain
no occurrence of the old identifier. -/
theorem rewrite_frame (m : List (Str × Str)) (content o n : Str) :
    updateContent [] content = content ∧
    ((∀ p ∈ m, containsSeq p.1 content = false) →
      updateContent m content = content) ∧
    (o ≠ [] →
      replaceAll o n content = joinWith n (pySplit o content) ∧
      joinWith o (pySplit o content) = content ∧
      ∀ seg ∈ pySplit o content, containsSeq o seg = false) := by
  refine ⟨rfl, ?_, ?_⟩
  · intro hnone
    induction m with
    | nil => rfl
    | cons p ps ih =>
      have hp : containsSeq p.1 content = false := hnone p (by simp)
      have hps : ∀ q ∈ ps, containsSeq q.1 content = false := by
        intro q hq
        exact hnone q (List.mem_cons_of_mem _ hq)
      unfold updateContent
      simp only [List.foldl_cons, hp, Bool.false_eq_true, if_false]
      exact ih hps
  · intro ho
    exact pySplit_props o n ho content

/-- Witness for C8: replacing `ab` by `Z` in `xaby` touches only the
occurrence. -/
theorem rewrite_frame_witness :
    ("ab".toList ≠ ([] : Str)) ∧
    (replaceAll "ab".toList "Z".toList "xaby".toList =
        joinWith "Z".toList (pySplit "ab".toList "xaby".toList) ∧
      joinWith "ab".toList (pySplit "ab".toList "xaby".toList) = "xaby".toList ∧
      ∀ seg ∈ pySplit "ab".toList "xaby".toList,
        containsSeq "ab".toList seg = false) :=
  ⟨by decide,
   (rewrite_frame [] "xaby".toList "ab".toList "Z".toList).2.2 (by decide)⟩

end Relinker
